import Mathlib

/-!
Shallow embedding of `reconciler.go` (alertmanager-irc-relay): the per-channel
join state machine (`channelState`), its monitor loop, and the channel
reconciler registry (`ChannelReconciler`), together with proofs of the
specification claims about them.

Modelling conventions:
* Go's `chan struct{}` completion signals (`joinDone`, closed to mean
  "joined") are modelled by generation numbers: `joinDone` holds the id of
  the current signal object, `nextSignal` the next fresh id, and
  `closedSignals` the ids of all signal objects that have been closed
  (a closed Go channel stays closed forever, so `closedSignals` only grows).
* The best-effort non-blocking send on `joinUnsetSignal` is recorded by the
  counter `wakeAttempts`.
* `context.Context` values are modelled by their error status
  (`CtxErr`), with `Option` for a nil context interface; cancellation
  scopes in the registry are modelled by scope ids together with the set of
  ids that have been cancelled.
-/

/-- Constant `ircJoinWaitSecs` from reconciler.go. -/
def ircJoinWaitSecs : Nat := 10

/-- Constant `ircJoinMaxBackoffSecs` from reconciler.go. -/
def ircJoinMaxBackoffSecs : Nat := 300

/-- Constant `ircJoinBackoffResetSecs` from reconciler.go. -/
def ircJoinBackoffResetSecs : Nat := 1800

/-- An IRC channel identity: name plus password (`IRCChannel` in config.go,
used by reconciler.go). -/
structure IRCChannel where
  name : String
  password : String
deriving DecidableEq, Repr

/-- The three parameters the reconciler passes to
`delayerMaker.NewDelayer(maxBackoffSecs, backoffResetSecs, time.Second)`;
the delayer itself is an external collaborator. Durations in seconds. -/
structure DelayerParams where
  maxBackoffSecs : Nat
  backoffResetSecs : Nat
  initialDelaySecs : Nat
deriving DecidableEq, Repr

/-- The state owned by one channel's convergence loop (`channelState` in
reconciler.go). `joinDone` is the id of the current completion-signal
object, `closedSignals` the ids of signal objects that have been closed
(satisfied), `nextSignal` the next fresh signal id. -/
structure ChannelState where
  channel : IRCChannel
  delayer : DelayerParams
  joinDone : Nat
  joined : Bool
  nextSignal : Nat
  closedSignals : List Nat
  wakeAttempts : Nat
deriving DecidableEq, Repr

/-- `newChannelState` from reconciler.go: fresh unsatisfied signal, not
joined, delayer built with (max 300, reset 1800, initial 1 second). -/
def newChannelState (channel : IRCChannel) : ChannelState :=
  { channel := channel
    delayer :=
      { maxBackoffSecs := ircJoinMaxBackoffSecs
        backoffResetSecs := ircJoinBackoffResetSecs
        initialDelaySecs := 1 }
    joinDone := 0
    joined := false
    nextSignal := 1
    closedSignals := []
    wakeAttempts := 0 }

/-- `JoinDone()` from reconciler.go: returns the current completion-signal
object (its id, in this model). -/
def JoinDone (c : ChannelState) : Nat :=
  c.joinDone

/-- Whether a given signal object is satisfied (the Go channel has been
closed). -/
def signalSatisfied (c : ChannelState) (sig : Nat) : Bool :=
  sig ∈ c.closedSignals

/-- `SetJoined()` from reconciler.go: no-op when already joined, otherwise
set `joined` and close (satisfy) the current `joinDone` signal. -/
def SetJoined (c : ChannelState) : ChannelState :=
  if c.joined = true then c
  else
    { c with
      joined := true
      closedSignals := c.joinDone :: c.closedSignals }

/-- `UnsetJoined()` from reconciler.go: no-op when already not joined,
otherwise clear `joined`, install a fresh (unsatisfied) `joinDone` signal,
and attempt a non-blocking wake of the monitor routine. -/
def UnsetJoined (c : ChannelState) : ChannelState :=
  if c.joined = false then c
  else
    { c with
      joined := false
      joinDone := c.nextSignal
      nextSignal := c.nextSignal + 1
      wakeAttempts := c.wakeAttempts + 1 }

/-- A call to one of the two state-transition methods of a channel loop. -/
inductive SigOp where
  | set
  | unset
deriving DecidableEq, Repr

/-- Apply one `SetJoined`/`UnsetJoined` call. -/
def applySigOp (c : ChannelState) : SigOp → ChannelState
  | .set => SetJoined c
  | .unset => UnsetJoined c

/-- Run a sequence of `SetJoined`/`UnsetJoined` calls. -/
def runSigOps (c : ChannelState) (ops : List SigOp) : ChannelState :=
  ops.foldl applySigOp c

/-- Structural invariant of a channel loop's signal state: the current
signal and every closed signal id are below the fresh counter, and the
current signal is satisfied exactly when the channel is joined. -/
def SigInv (c : ChannelState) : Prop :=
  c.joinDone < c.nextSignal ∧
  (∀ s ∈ c.closedSignals, s < c.nextSignal) ∧
  (c.joined = true ↔ c.joinDone ∈ c.closedSignals)

instance (c : ChannelState) : Decidable (SigInv c) := by
  unfold SigInv; infer_instance

lemma sigInv_newChannelState (ch : IRCChannel) : SigInv (newChannelState ch) := by
  refine ⟨Nat.one_pos, ?_, ?_⟩ <;> simp [newChannelState]

lemma sigInv_SetJoined {c : ChannelState} (h : SigInv c) : SigInv (SetJoined c) := by
  obtain ⟨h1, h2, h3⟩ := h
  unfold SetJoined
  by_cases hj : c.joined = true
  · simpa [hj] using ⟨h1, h2, h3⟩
  · simp only [hj, if_false]
    refine ⟨h1, ?_, ?_⟩
    · intro s hs
      rcases List.mem_cons.mp hs with rfl | hs
      · exact h1
      · exact h2 s hs
    · simp

lemma sigInv_UnsetJoined {c : ChannelState} (h : SigInv c) : SigInv (UnsetJoined c) := by
  obtain ⟨h1, h2, h3⟩ := h
  unfold UnsetJoined
  by_cases hj : c.joined = false
  · simpa [hj] using ⟨h1, h2, h3⟩
  · simp only [hj, if_false]
    refine ⟨Nat.lt_succ_self _, ?_, ?_⟩
    · intro s hs
      exact Nat.lt_succ_of_lt (h2 s hs)
    · constructor
      · intro hfalse; cases hfalse
      · intro hmem
        exact absurd (h2 _ hmem) (lt_irrefl _)

lemma sigInv_applySigOp {c : ChannelState} (h : SigInv c) (op : SigOp) :
    SigInv (applySigOp c op) := by
  cases op
  · exact sigInv_SetJoined h
  · exact sigInv_UnsetJoined h

lemma sigInv_runSigOps {c : ChannelState} (h : SigInv c) (ops : List SigOp) :
    SigInv (runSigOps c ops) := by
  induction ops generalizing c with
  | nil => exact h
  | cons op rest ih => exact ih (sigInv_applySigOp h op)

lemma closedSignals_mono_applySigOp (c : ChannelState) (op : SigOp) {s : Nat}
    (h : s ∈ c.closedSignals) : s ∈ (applySigOp c op).closedSignals := by
  cases op <;> simp only [applySigOp, SetJoined, UnsetJoined] <;> split <;>
    simp [h]

lemma closedSignals_mono_runSigOps (c : ChannelState) (ops : List SigOp) {s : Nat}
    (h : s ∈ c.closedSignals) : s ∈ (runSigOps c ops).closedSignals := by
  induction ops generalizing c with
  | nil => exact h
  | cons op rest ih => exact ih _ (closedSignals_mono_applySigOp c op h)

lemma unsetJoined_of_not_joined {c : ChannelState} (h : c.joined = false) :
    UnsetJoined c = c := by
  simp [UnsetJoined, h]

lemma joined_UnsetJoined (c : ChannelState) : (UnsetJoined c).joined = false := by
  unfold UnsetJoined; split
  · assumption
  · rfl

lemma runSigOps_unset_only {c : ChannelState} (h : c.joined = false)
    (ops : List SigOp) (hops : ∀ op ∈ ops, op = SigOp.unset) :
    runSigOps c ops = c := by
  induction ops with
  | nil => rfl
  | cons op rest ih =>
    have hop : op = SigOp.unset := hops op (List.mem_cons_self op rest)
    subst hop
    show runSigOps (UnsetJoined c) rest = c
    rw [unsetJoined_of_not_joined h]
    exact ih fun o ho => hops o (List.mem_cons_of_mem _ ho)

lemma fresh_signal_unsatisfied {c : ChannelState} (h : SigInv c) :
    (UnsetJoined c).joinDone ∉ (UnsetJoined c).closedSignals := by
  obtain ⟨h1, h2, h3⟩ := h
  unfold UnsetJoined
  by_cases hj : c.joined = false
  · simp_all
  · simp only [hj, if_false]
    intro hmem
    exact absurd (h2 _ hmem) (lt_irrefl _)

/-- C1: for every channel loop, the set of satisfied signal instances only
grows under any sequence of `SetJoined`/`UnsetJoined` calls (no retroactive
un-completion, so a pre-reset waiter's satisfied signal is never revoked);
the invariant `SigInv` holds of a fresh loop and is preserved; after
`UnsetJoined` the freshly installed current signal is unsatisfied, and it
stays both current and unsatisfied across any further calls that contain no
transition to joined. -/
theorem c1_signal_generation_scoped (c : ChannelState) (ops : List SigOp)
    (s : Nat) (hinv : SigInv c) :
    (∀ ch : IRCChannel, SigInv (newChannelState ch)) ∧
    SigInv (runSigOps c ops) ∧
    (s ∈ c.closedSignals → s ∈ (runSigOps c ops).closedSignals) ∧
    (UnsetJoined c).joinDone ∉ (UnsetJoined c).closedSignals ∧
    ((∀ op ∈ ops, op = SigOp.unset) →
      runSigOps (UnsetJoined c) ops = UnsetJoined c) := by
  refine ⟨sigInv_newChannelState, sigInv_runSigOps hinv ops, ?_, ?_, ?_⟩
  · exact closedSignals_mono_runSigOps c ops
  · exact fresh_signal_unsatisfied hinv
  · intro hops
    exact runSigOps_unset_only (joined_UnsetJoined c) ops hops

/-- Witness for C1 at a concrete state and op sequence. -/
theorem c1_signal_generation_scoped_witness :
    SigInv (SetJoined (newChannelState ⟨"#a", "pw"⟩)) ∧
    (0 ∈ (runSigOps (SetJoined (newChannelState ⟨"#a", "pw"⟩))
        [SigOp.unset, SigOp.set, SigOp.unset]).closedSignals) := by
  have h := c1_signal_generation_scoped (SetJoined (newChannelState ⟨"#a", "pw"⟩))
    [SigOp.unset, SigOp.set, SigOp.unset] 0 (by decide)
  exact ⟨by decide, h.2.2.1 (by decide)⟩

/-- C2: `SetJoined` and `UnsetJoined` are idempotent: a redundant call
(when the flag already has the target value) changes nothing at all — in
particular it neither satisfies a second signal instance nor installs a
second fresh one — and composing either operation with itself equals a
single application. -/
theorem c2_set_unset_idempotent (c : ChannelState) :
    SetJoined (SetJoined c) = SetJoined c ∧
    UnsetJoined (UnsetJoined c) = UnsetJoined c ∧
    (SetJoined c).joined = true ∧
    (UnsetJoined c).joined = false ∧
    (c.joined = true → SetJoined c = c) ∧
    (c.joined = false → UnsetJoined c = c) := by
  have hset : (SetJoined c).joined = true := by
    unfold SetJoined; split
    · assumption
    · rfl
  have hfix : ∀ d : ChannelState, d.joined = true → SetJoined d = d := by
    intro d h
    simp [SetJoined, h]
  refine ⟨?_, ?_, hset, joined_UnsetJoined c, hfix c, unsetJoined_of_not_joined⟩
  · exact hfix _ hset
  · exact unsetJoined_of_not_joined (joined_UnsetJoined c)

/-- Witness for C2 at a concrete already-joined and already-unjoined state. -/
theorem c2_set_unset_idempotent_witness :
    SetJoined (SetJoined (newChannelState ⟨"#a", ""⟩)) =
      SetJoined (newChannelState ⟨"#a", ""⟩) ∧
    UnsetJoined (newChannelState ⟨"#a", ""⟩) = newChannelState ⟨"#a", ""⟩ := by
  have h := c2_set_unset_idempotent (newChannelState ⟨"#a", ""⟩)
  exact ⟨h.1, h.2.2.2.2.2 (by decide)⟩

/-- The error status of a `context.Context`: `noErr` while the context is
live, `canceled` after its own cancel function (or a cancelled ancestor)
fired, `deadlineExceeded` when the context became done because an
ancestor's deadline expired. -/
inductive CtxErr where
  | noErr
  | canceled
  | deadlineExceeded
deriving DecidableEq, Repr

/-- The three branches of the `select` at the end of `join` in
reconciler.go: the completion signal became satisfied, the fixed
`ircJoinWaitSecs`-second window elapsed, or the context became done. -/
inductive JoinWaitOutcome where
  | joinDone
  | timeout
  | ctxDone
deriving DecidableEq, Repr

/-- The two branches of the `select` in `monitorJoinUnset`: the wake notice
on `joinUnsetSignal` was received, or the context became done. -/
inductive UnsetWaitOutcome where
  | wake
  | ctxDone
deriving DecidableEq, Repr

/-- An observable protocol-client action of a channel monitor. -/
inductive Event where
  | joinRequest (name : String) (password : String)
deriving DecidableEq, Repr

/-- `join` from reconciler.go, as a function of the delayer outcome
(`delayOk` is `DelayContext`'s return; the delayer contract makes it
`false` when the context is cancelled during the delay) and of which
branch of the final `select` fired.  Returns the list of join requests
sent and `some` final wait outcome, or `none` when `join` returned early
out of the delay without reaching the send. -/
def joinBody (c : ChannelState) (delayOk : Bool) (wait : JoinWaitOutcome) :
    List Event × Option JoinWaitOutcome :=
  if delayOk = false then ([], none)
  else ([Event.joinRequest c.channel.name c.channel.password], some wait)

/-- Readiness of each branch of `join`'s `select`: `<-c.JoinDone()` is
ready exactly when the current signal is satisfied, `time.After` becomes
ready once the window elapses, `<-ctx.Done()` is ready exactly when the
context is done (any non-nil error). -/
def joinWaitReady (c : ChannelState) (e : CtxErr) : JoinWaitOutcome → Bool
  | .joinDone => signalSatisfied c (JoinDone c)
  | .timeout => true
  | .ctxDone =>
    match e with
    | .noErr => false
    | _ => true

/-- Readiness of each branch of `monitorJoinUnset`'s `select`:
`<-c.joinUnsetSignal` is ready exactly when a wake notice is being
delivered, `<-ctx.Done()` exactly when the context is done. -/
def unsetWaitReady (wakePending : Bool) (e : CtxErr) : UnsetWaitOutcome → Bool
  | .wake => wakePending
  | .ctxDone =>
    match e with
    | .noErr => false
    | _ => true

/-- The loop of `Monitor` from reconciler.go: iteration `i` first
evaluates the guard `ctx.Err() != context.Canceled` (with `errAt i` the
context's error status at that iteration) and exits when it is false;
otherwise it runs the body (`join` or `monitorJoinUnset`, both of which
return) and continues.  Fuel bounds the number of iterations inspected;
the result is `some i` when the loop exits at iteration `i`, `none` when
it is still running after `fuel` iterations. -/
def monitorRun (errAt : Nat → CtxErr) : Nat → Nat → Option Nat
  | 0, _ => none
  | fuel + 1, i =>
    if errAt i = CtxErr.canceled then some i else monitorRun errAt fuel (i + 1)

/-- Outcome of spawning `go c.Monitor(ctx, wg)`. -/
inductive MonitorOutcome where
  | panicked
  | exited (i : Nat)
  | outOfFuel
deriving DecidableEq, Repr

/-- Spawning `Monitor` against a possibly-nil context (`none` models a nil
`context.Context` interface): the loop guard's very first `ctx.Err()` call
dereferences nil and panics when the context is nil. -/
def monitorStart (ctx : Option (Nat → CtxErr)) (fuel : Nat) : MonitorOutcome :=
  match ctx with
  | none => MonitorOutcome.panicked
  | some errAt =>
    match monitorRun errAt fuel 0 with
    | some i => MonitorOutcome.exited i
    | none => MonitorOutcome.outOfFuel

/-- A context whose error is forever `deadlineExceeded`: the status every
context derived from a deadline-expired parent keeps from the moment the
deadline fires. -/
def ctxDeadlineForever : Nat → CtxErr :=
  fun _ => CtxErr.deadlineExceeded

/-- The monitor loop never exits (at no fuel bound and from no start
iteration) against the given context-error trace. -/
def MonitorNeverExits (errAt : Nat → CtxErr) : Prop :=
  ∀ fuel i : Nat, monitorRun errAt fuel i = none

lemma monitorRun_exit_canceled {errAt : Nat → CtxErr} :
    ∀ {fuel i j : Nat}, monitorRun errAt fuel i = some j →
      errAt j = CtxErr.canceled := by
  intro fuel
  induction fuel with
  | zero => intro i j h; cases h
  | succ n ih =>
    intro i j h
    by_cases hc : errAt i = CtxErr.canceled
    · simp only [monitorRun, hc, if_pos] at h
      cases h
      exact hc
    · simp only [monitorRun, hc, if_neg, if_false] at h
      exact ih h

lemma monitorRun_of_canceled {errAt : Nat → CtxErr} {i : Nat}
    (h : errAt i = CtxErr.canceled) (fuel : Nat) :
    monitorRun errAt (fuel + 1) i = some i := by
  simp [monitorRun, h]

lemma monitorRun_never_canceled {errAt : Nat → CtxErr}
    (h : ∀ i, errAt i ≠ CtxErr.canceled) :
    ∀ fuel i, monitorRun errAt fuel i = none := by
  intro fuel
  induction fuel with
  | zero => intro i; rfl
  | succ n ih =>
    intro i
    simp only [monitorRun, h i, if_false, if_neg]
    exact ih (i + 1)

/-- C5 counterexample: a loop whose scope was shut down by a parent
deadline (context error `deadlineExceeded`, context done) never
terminates — the guard `ctx.Err() != context.Canceled` stays true — even
though the claim requires the task to terminate promptly whenever the
scope is shut down. -/
theorem c5_counterexample_deadline_spins :
    MonitorNeverExits ctxDeadlineForever ∧
    monitorRun ctxDeadlineForever 50 0 = none ∧
    ctxDeadlineForever 0 ≠ CtxErr.noErr := by
  have hne : ∀ i, ctxDeadlineForever i ≠ CtxErr.canceled := by
    intro i h
    cases h
  exact ⟨monitorRun_never_canceled hne, monitorRun_never_canceled hne 50 0,
    by decide⟩

/-- C5 (amended): the monitor task exits only when the context's error is
`Canceled`, and whenever the error is `Canceled` it exits immediately at
the next guard check; every blocked wait does return promptly once the
context is done — the delayer returns `false` so `join` sends nothing and
returns, and both `select`s have their context branch ready — but when the
context is done with `deadlineExceeded` the loop itself spins forever
instead of terminating. -/
theorem c5_scope_cancellation (errAt : Nat → CtxErr) (fuel i j : Nat)
    (c : ChannelState) (w : JoinWaitOutcome) (wakePending : Bool) :
    (monitorRun errAt fuel i = some j → errAt j = CtxErr.canceled) ∧
    (errAt i = CtxErr.canceled → monitorRun errAt (fuel + 1) i = some i) ∧
    joinBody c false w = ([], none) ∧
    (errAt i ≠ CtxErr.noErr → joinWaitReady c (errAt i) JoinWaitOutcome.ctxDone = true) ∧
    (errAt i ≠ CtxErr.noErr →
      unsetWaitReady wakePending (errAt i) UnsetWaitOutcome.ctxDone = true) ∧
    ((∀ k, errAt k ≠ CtxErr.canceled) → monitorRun errAt fuel i = none) := by
  refine ⟨monitorRun_exit_canceled, fun h => monitorRun_of_canceled h fuel,
    rfl, ?_, ?_, fun h => monitorRun_never_canceled h fuel i⟩
  · intro h
    unfold joinWaitReady
    cases herr : errAt i
    · exact absurd herr h
    · rfl
    · rfl
  · intro h
    unfold unsetWaitReady
    cases herr : errAt i
    · exact absurd herr h
    · rfl
    · rfl

/-- Witness for C5 (amended) on a concrete always-cancelled trace. -/
theorem c5_scope_cancellation_witness :
    CtxErr.canceled = CtxErr.canceled ∧
    monitorRun (fun _ => CtxErr.canceled) 2 0 = some 0 ∧
    joinWaitReady (newChannelState ⟨"#a", ""⟩) CtxErr.canceled
      JoinWaitOutcome.ctxDone = true := by
  have h := c5_scope_cancellation (fun _ => CtxErr.canceled) 1 0 0
    (newChannelState ⟨"#a", ""⟩) JoinWaitOutcome.timeout false
  exact ⟨h.1 (by decide), h.2.1 rfl, h.2.2.2.1 (by decide)⟩

/-- C9: in a not-joined iteration, if the delayer reports cancellation the
body sends nothing and returns early; otherwise it sends exactly one join
request carrying the channel's name and password and then waits for the
first of the three `select` branches (signal satisfied, 10-second window,
cancellation); the per-channel delayer is constructed with initial delay 1
second, maximum 300 seconds, and reset-to-floor after 1800 seconds. -/
theorem c9_join_iteration_shape (c : ChannelState) (w : JoinWaitOutcome)
    (ch : IRCChannel) :
    joinBody c false w = ([], none) ∧
    joinBody c true w =
      ([Event.joinRequest c.channel.name c.channel.password], some w) ∧
    (joinBody c true w).1.length = 1 ∧
    ircJoinWaitSecs = 10 ∧
    (newChannelState ch).delayer =
      { maxBackoffSecs := 300, backoffResetSecs := 1800, initialDelaySecs := 1 } :=
  ⟨rfl, rfl, rfl, rfl, rfl⟩

/-- One entry of the reconciler's registry: the loop's channel state
together with the context (scope id) its `Monitor` goroutine was spawned
with (`none` models a nil `context.Context`). -/
structure LoopEntry where
  state : ChannelState
  ctx : Option Nat
deriving DecidableEq, Repr

/-- Go-map lookup `r.channels[name]` on the association-list model. -/
def alookup (k : String) : List (String × LoopEntry) → Option LoopEntry
  | [] => none
  | p :: rest => if p.1 = k then some p.2 else alookup k rest

/-- Drop every binding of a key (helper for Go-map assignment). -/
def aerase (k : String) : List (String × LoopEntry) → List (String × LoopEntry)
  | [] => []
  | p :: rest => if p.1 = k then aerase k rest else p :: aerase k rest

/-- Go-map assignment `r.channels[name] = c`: overwrite semantics. -/
def ainsert (k : String) (v : LoopEntry) (m : List (String × LoopEntry)) :
    List (String × LoopEntry) :=
  (k, v) :: aerase k m

/-- In-place mutation of the entry stored under a key (the Go code mutates
the looked-up `*channelState` through its methods). -/
def aupdate (k : String) (f : LoopEntry → LoopEntry)
    (m : List (String × LoopEntry)) : List (String × LoopEntry) :=
  m.map fun p => if p.1 = k then (p.1, f p.2) else p

/-- `ChannelReconciler` from reconciler.go.  `stopCtx` holds the scope id
of the current run (`none` models the nil `stopCtx`/`stopCtxCancel` pair
before the first `Start`; the two fields are always assigned together, so
one `Option` models both), `cancelledScopes` the ids of all scopes whose
cancel function has fired (or that were born of an already-cancelled
parent), `nextScope` the next fresh scope id. -/
structure Reconciler where
  preJoinChannels : List IRCChannel
  meNick : String
  channels : List (String × LoopEntry)
  stopCtx : Option Nat
  cancelledScopes : List Nat
  nextScope : Nat
deriving DecidableEq, Repr

/-- `NewChannelReconciler` from reconciler.go: empty registry, nil stop
context; `meNick` models `client.Me().Nick`, the local identity. -/
def NewChannelReconciler (preJoin : List IRCChannel) (meNick : String) :
    Reconciler :=
  { preJoinChannels := preJoin
    meNick := meNick
    channels := []
    stopCtx := none
    cancelledScopes := []
    nextScope := 0 }

/-- Whether a scope id has been cancelled. -/
def scopeCancelled (r : Reconciler) (sid : Nat) : Bool :=
  decide (sid ∈ r.cancelledScopes)

/-- Whether a loop entry's `Monitor` goroutine is still running: a task
spawned on a nil context panicked at once, and a task whose scope is
cancelled has exited (its loop guard fails). -/
def taskRunning (r : Reconciler) (e : LoopEntry) : Bool :=
  match e.ctx with
  | none => false
  | some sid => !(scopeCancelled r sid)

/-- `unsafeAddChannel` from reconciler.go: build a fresh channel state,
spawn its `Monitor` goroutine against the current `stopCtx`, and register
it under the channel's name. -/
def unsafeAddChannel (ch : IRCChannel) (r : Reconciler) :
    LoopEntry × Reconciler :=
  let c : LoopEntry := { state := newChannelState ch, ctx := r.stopCtx }
  (c, { r with channels := ainsert ch.name c r.channels })

/-- `JoinChannel` from reconciler.go: ensure a loop exists (creating one
with an empty password when absent), then return `(true, none)` when its
current completion signal is already satisfied and `(false, some signal)`
otherwise, never blocking. -/
def JoinChannel (name : String) (r : Reconciler) :
    (Bool × Option Nat) × Reconciler :=
  match alookup name r.channels with
  | some c =>
    if signalSatisfied c.state (JoinDone c.state) then ((true, none), r)
    else ((false, some (JoinDone c.state)), r)
  | none =>
    let p := unsafeAddChannel { name := name, password := "" } r
    if signalSatisfied p.1.state (JoinDone p.1.state) then ((true, none), p.2)
    else ((false, some (JoinDone p.1.state)), p.2)

/-- `HandleJoin` from reconciler.go: ignore events about other identities
or unknown channels, otherwise `SetJoined` on the registered loop. -/
def HandleJoin (nick : String) (channel : String) (r : Reconciler) :
    Reconciler :=
  if nick ≠ r.meNick then r
  else
    match alookup channel r.channels with
    | none => r
    | some _ =>
      { r with
        channels :=
          aupdate channel (fun e => { e with state := SetJoined e.state })
            r.channels }

/-- `HandleKick` from reconciler.go: ignore events about other identities
or unknown channels, otherwise `UnsetJoined` on the registered loop. -/
def HandleKick (nick : String) (channel : String) (r : Reconciler) :
    Reconciler :=
  if nick ≠ r.meNick then r
  else
    match alookup channel r.channels with
    | none => r
    | some _ =>
      { r with
        channels :=
          aupdate channel (fun e => { e with state := UnsetJoined e.state })
            r.channels }

/-- `unsafeStop` from reconciler.go: a no-op before the first `Start`
(nil `stopCtxCancel`); otherwise cancel the current scope, wait out every
monitor goroutine, and clear the registry. -/
def unsafeStop (r : Reconciler) : Reconciler :=
  match r.stopCtx with
  | none => r
  | some sid =>
    { r with
      cancelledScopes := sid :: r.cancelledScopes
      channels := [] }

/-- `Stop` from reconciler.go (the mutex around `unsafeStop`). -/
def Stop (r : Reconciler) : Reconciler :=
  unsafeStop r

/-- `Start` from reconciler.go: stop any previous run, derive a fresh
cancellation scope from the parent (`parentCancelled` records whether the
parent context is already done, in which case the child scope is born
cancelled), then add one loop per configured pre-join channel. -/
def Start (parentCancelled : Bool) (r : Reconciler) : Reconciler :=
  let r1 := unsafeStop r
  let sid := r1.nextScope
  let r2 : Reconciler :=
    { r1 with
      stopCtx := some sid
      nextScope := sid + 1
      cancelledScopes :=
        if parentCancelled then sid :: r1.cancelledScopes
        else r1.cancelledScopes }
  r1.preJoinChannels.foldl (fun acc ch => (unsafeAddChannel ch acc).2) r2

lemma alookup_cons (k : String) (p : String × LoopEntry)
    (rest : List (String × LoopEntry)) :
    alookup k (p :: rest) = if p.1 = k then some p.2 else alookup k rest := rfl

lemma aerase_cons (k : String) (p : String × LoopEntry)
    (rest : List (String × LoopEntry)) :
    aerase k (p :: rest) =
      if p.1 = k then aerase k rest else p :: aerase k rest := rfl

lemma aupdate_cons (k : String) (f : LoopEntry → LoopEntry)
    (p : String × LoopEntry) (rest : List (String × LoopEntry)) :
    aupdate k f (p :: rest) =
      (if p.1 = k then (p.1, f p.2) else p) :: aupdate k f rest := rfl

lemma alookup_ainsert_self (k : String) (v : LoopEntry)
    (m : List (String × LoopEntry)) : alookup k (ainsert k v m) = some v := by
  simp [alookup, ainsert]

lemma alookup_aerase_ne {k k' : String} (h : k' ≠ k)
    (m : List (String × LoopEntry)) :
    alookup k' (aerase k m) = alookup k' m := by
  induction m with
  | nil => rfl
  | cons p rest ih =>
    rw [aerase_cons]
    by_cases hp : p.1 = k
    · have hne : p.1 ≠ k' := by
        rw [hp]
        exact fun hh => h hh.symm
      rw [if_pos hp, alookup_cons, if_neg hne]
      exact ih
    · rw [if_neg hp, alookup_cons, alookup_cons]
      by_cases hk : p.1 = k'
      · rw [if_pos hk, if_pos hk]
      · rw [if_neg hk, if_neg hk]
        exact ih

lemma alookup_ainsert_ne {k k' : String} (h : k' ≠ k) (v : LoopEntry)
    (m : List (String × LoopEntry)) :
    alookup k' (ainsert k v m) = alookup k' m := by
  have hne : k ≠ k' := fun hh => h hh.symm
  rw [ainsert, alookup_cons, if_neg hne]
  exact alookup_aerase_ne h m

lemma alookup_aupdate_self (k : String) (f : LoopEntry → LoopEntry)
    (m : List (String × LoopEntry)) :
    alookup k (aupdate k f m) = (alookup k m).map f := by
  induction m with
  | nil => rfl
  | cons p rest ih =>
    rw [aupdate_cons, alookup_cons]
    by_cases hp : p.1 = k
    · rw [if_pos hp]
      show (if p.1 = k then some (f p.2) else alookup k (aupdate k f rest)) = _
      rw [if_pos hp, alookup_cons, if_pos hp]
      rfl
    · rw [if_neg hp]
      show (if p.1 = k then some p.2 else alookup k (aupdate k f rest)) = _
      rw [if_neg hp, alookup_cons, if_neg hp]
      exact ih

lemma alookup_aupdate_ne {k k' : String} (h : k' ≠ k)
    (f : LoopEntry → LoopEntry) (m : List (String × LoopEntry)) :
    alookup k' (aupdate k f m) = alookup k' m := by
  induction m with
  | nil => rfl
  | cons p rest ih =>
    rw [aupdate_cons, alookup_cons]
    by_cases hp : p.1 = k
    · have hne : p.1 ≠ k' := by
        rw [hp]
        exact fun hh => h hh.symm
      rw [if_pos hp]
      show (if p.1 = k' then some (f p.2) else alookup k' (aupdate k f rest)) = _
      rw [if_neg hne, alookup_cons, if_neg hne]
      exact ih
    · rw [if_neg hp]
      show (if p.1 = k' then some p.2 else alookup k' (aupdate k f rest)) = _
      rw [alookup_cons]
      by_cases hk : p.1 = k'
      · rw [if_pos hk, if_pos hk]
      · rw [if_neg hk, if_neg hk]
        exact ih

/-- A sample populated reconciler used by witnesses: one registered,
already-joined loop for channel `#a` under a live scope. -/
def sampleLoop : LoopEntry :=
  { state := SetJoined (newChannelState ⟨"#a", "pw"⟩), ctx := some 0 }

/-- See `sampleLoop`. -/
def sampleReconciler : Reconciler :=
  { preJoinChannels := [⟨"#a", "pw"⟩]
    meNick := "me"
    channels := [("#a", sampleLoop)]
    stopCtx := some 0
    cancelledScopes := []
    nextScope := 1 }

/-- C3: `JoinChannel name` leaves an existing loop (and the whole
reconciler) unchanged and returns `(true, none)` exactly when that loop's
current completion signal is already satisfied, otherwise `(false, some
signal)` with the loop's current signal; when no loop exists it registers
exactly one new loop with an empty password (whose fresh signal is
unsatisfied, so the result is `(false, some signal)`), leaving every other
registry key unchanged.  It never waits: it is a total function of the
current state. -/
theorem c3_JoinChannel_spec (name : String) (r : Reconciler) :
    (∀ c, alookup name r.channels = some c →
      (JoinChannel name r).2 = r ∧
      (signalSatisfied c.state (JoinDone c.state) = true →
        (JoinChannel name r).1 = (true, none)) ∧
      (signalSatisfied c.state (JoinDone c.state) = false →
        (JoinChannel name r).1 = (false, some (JoinDone c.state)))) ∧
    (alookup name r.channels = none →
      (JoinChannel name r).1 = (false, some 0) ∧
      (JoinChannel name r).2 =
        { r with
          channels :=
            ainsert name
              { state := newChannelState { name := name, password := "" }
                ctx := r.stopCtx } r.channels } ∧
      alookup name (JoinChannel name r).2.channels =
        some { state := newChannelState { name := name, password := "" }
               ctx := r.stopCtx } ∧
      (∀ k, k ≠ name →
        alookup k (JoinChannel name r).2.channels = alookup k r.channels)) := by
  constructor
  · intro c hc
    cases hsat : signalSatisfied c.state (JoinDone c.state) <;>
      refine ⟨?_, ?_, ?_⟩ <;> simp [JoinChannel, hc, hsat]
  · intro hnone
    have hfresh :
        signalSatisfied (newChannelState { name := name, password := "" }) 0
          = false := by
      simp [signalSatisfied, newChannelState]
    refine ⟨?_, ?_, ?_, ?_⟩
    · simp [JoinChannel, hnone, unsafeAddChannel, JoinDone, newChannelState,
        signalSatisfied]
    · simp [JoinChannel, hnone, unsafeAddChannel, JoinDone, newChannelState,
        signalSatisfied]
    · simp only [JoinChannel, hnone, unsafeAddChannel, JoinDone]
      rw [if_neg (by simp [newChannelState, signalSatisfied])]
      exact alookup_ainsert_self _ _ _
    · intro k hk
      simp only [JoinChannel, hnone, unsafeAddChannel, JoinDone]
      rw [if_neg (by simp [newChannelState, signalSatisfied])]
      exact alookup_ainsert_ne hk _ _

/-- Witness for C3: on the sample reconciler the registered `#a` loop is
already satisfied, so `JoinChannel` returns `(true, none)` and changes
nothing; on a fresh reconciler `JoinChannel "x"` returns `(false, some 0)`. -/
theorem c3_JoinChannel_spec_witness :
    (JoinChannel "#a" sampleReconciler).2 = sampleReconciler ∧
    (JoinChannel "#a" sampleReconciler).1 = (true, none) ∧
    (JoinChannel "x" (NewChannelReconciler [] "me")).1 = (false, some 0) := by
  have h1 := (c3_JoinChannel_spec "#a" sampleReconciler).1 sampleLoop (by decide)
  have h2 := (c3_JoinChannel_spec "x" (NewChannelReconciler [] "me")).2 (by decide)
  exact ⟨h1.1, h1.2.1 (by decide), h2.1⟩

/-- C4: `HandleJoin`/`HandleKick` for a foreign identity or an unknown
channel change nothing (and create no loop); for the local identity and a
registered channel they apply `SetJoined`/`UnsetJoined` to exactly the
loop registered under that name, leaving every other registry key and
every other reconciler field unchanged. -/
theorem c4_handle_events_frame (nick channel : String) (r : Reconciler) :
    (nick ≠ r.meNick →
      HandleJoin nick channel r = r ∧ HandleKick nick channel r = r) ∧
    (alookup channel r.channels = none →
      HandleJoin nick channel r = r ∧ HandleKick nick channel r = r) ∧
    (∀ c, nick = r.meNick → alookup channel r.channels = some c →
      alookup channel (HandleJoin nick channel r).channels =
        some { c with state := SetJoined c.state } ∧
      alookup channel (HandleKick nick channel r).channels =
        some { c with state := UnsetJoined c.state } ∧
      (∀ k, k ≠ channel →
        alookup k (HandleJoin nick channel r).channels = alookup k r.channels ∧
        alookup k (HandleKick nick channel r).channels = alookup k r.channels) ∧
      (HandleJoin nick channel r).stopCtx = r.stopCtx ∧
      (HandleJoin nick channel r).preJoinChannels = r.preJoinChannels ∧
      (HandleJoin nick channel r).cancelledScopes = r.cancelledScopes ∧
      (HandleKick nick channel r).stopCtx = r.stopCtx) := by
  refine ⟨?_, ?_, ?_⟩
  · intro h
    constructor <;> simp [HandleJoin, HandleKick, h]
  · intro h
    constructor <;> simp only [HandleJoin, HandleKick, h] <;> split <;> rfl
  · intro c hme hc
    subst hme
    refine ⟨?_, ?_, ?_, ?_, ?_, ?_, ?_⟩
    · simp only [HandleJoin, ne_eq, not_true_eq_false, if_false, hc]
      rw [alookup_aupdate_self, hc]
      rfl
    · simp only [HandleKick, ne_eq, not_true_eq_false, if_false, hc]
      rw [alookup_aupdate_self, hc]
      rfl
    · intro k hk
      constructor
      · simp only [HandleJoin, ne_eq, not_true_eq_false, if_false, hc]
        exact alookup_aupdate_ne hk _ _
      · simp only [HandleKick, ne_eq, not_true_eq_false, if_false, hc]
        exact alookup_aupdate_ne hk _ _
    · simp [HandleJoin, hc]
    · simp [HandleJoin, hc]
    · simp [HandleJoin, hc]
    · simp [HandleKick, hc]

/-- Witness for C4: a foreign nick is ignored, and a local-identity kick
unsets exactly the registered `#a` loop of the sample reconciler. -/
theorem c4_handle_events_frame_witness :
    HandleJoin "bob" "#a" sampleReconciler = sampleReconciler ∧
    HandleJoin "me" "#b" sampleReconciler = sampleReconciler ∧
    alookup "#a" (HandleKick "me" "#a" sampleReconciler).channels =
      some { sampleLoop with state := UnsetJoined sampleLoop.state } := by
  have h1 := (c4_handle_events_frame "bob" "#a" sampleReconciler).1 (by decide)
  have h2 := (c4_handle_events_frame "me" "#b" sampleReconciler).2.1 (by decide)
  have h3 := (c4_handle_events_frame "me" "#a" sampleReconciler).2.2 sampleLoop
    (by decide) (by decide)
  exact ⟨h1.1, h2.1, h3.2.1⟩

/-- C6: `Stop` on a never-started reconciler (nil stop context) is a
no-op; otherwise it cancels the active scope, after which every loop task
spawned under that scope has exited, and it leaves the registry's channel
map empty (other fields untouched). -/
theorem c6_Stop_spec (r : Reconciler) :
    (r.stopCtx = none → Stop r = r) ∧
    (∀ sid, r.stopCtx = some sid →
      (Stop r).channels = [] ∧
      scopeCancelled (Stop r) sid = true ∧
      (∀ p ∈ r.channels, p.2.ctx = r.stopCtx → taskRunning (Stop r) p.2 = false) ∧
      (Stop r).stopCtx = r.stopCtx ∧
      (Stop r).preJoinChannels = r.preJoinChannels ∧
      (Stop r).meNick = r.meNick ∧
      (Stop r).nextScope = r.nextScope) := by
  constructor
  · intro h
    simp [Stop, unsafeStop, h]
  · intro sid h
    refine ⟨?_, ?_, ?_, ?_, ?_, ?_, ?_⟩ <;>
      simp only [Stop, unsafeStop, h] <;> try rfl
    · simp [scopeCancelled]
    · intro p hp hctx
      simp [taskRunning, hctx, scopeCancelled]

/-- Witness for C6: `Stop` is a no-op on a fresh (never-started)
reconciler and empties the sample reconciler's registry, taking its only
loop's task down with it. -/
theorem c6_Stop_spec_witness :
    Stop (NewChannelReconciler [⟨"#a", "pw"⟩] "me") =
      NewChannelReconciler [⟨"#a", "pw"⟩] "me" ∧
    (Stop sampleReconciler).channels = [] ∧
    taskRunning (Stop sampleReconciler) sampleLoop = false := by
  have h1 := (c6_Stop_spec (NewChannelReconciler [⟨"#a", "pw"⟩] "me")).1 rfl
  have h2 := (c6_Stop_spec sampleReconciler).2 0 rfl
  exact ⟨h1, h2.1, h2.2.2.1 ("#a", sampleLoop) (by decide) (by decide)⟩

lemma unsafeStop_preJoin (r : Reconciler) :
    (unsafeStop r).preJoinChannels = r.preJoinChannels := by
  cases h : r.stopCtx <;> simp [unsafeStop, h]

lemma unsafeStop_meNick (r : Reconciler) : (unsafeStop r).meNick = r.meNick := by
  cases h : r.stopCtx <;> simp [unsafeStop, h]

lemma unsafeStop_nextScope (r : Reconciler) :
    (unsafeStop r).nextScope = r.nextScope := by
  cases h : r.stopCtx <;> simp [unsafeStop, h]

lemma unsafeStop_stopCtx (r : Reconciler) :
    (unsafeStop r).stopCtx = r.stopCtx := by
  cases h : r.stopCtx <;> simp [unsafeStop, h]

lemma unsafeStop_channels {r : Reconciler}
    (hclean : r.stopCtx = none → r.channels = []) :
    (unsafeStop r).channels = [] := by
  cases h : r.stopCtx
  · simpa [unsafeStop, h] using hclean h
  · simp [unsafeStop, h]

lemma unsafeStop_cancelled_lt {r : Reconciler}
    (hcanc : ∀ s ∈ r.cancelledScopes, s < r.nextScope)
    (hsid : ∀ sid, r.stopCtx = some sid → sid < r.nextScope) :
    ∀ s ∈ (unsafeStop r).cancelledScopes, s < r.nextScope := by
  cases h : r.stopCtx with
  | none => simpa [unsafeStop, h] using hcanc
  | some sid =>
    intro s hs
    simp only [unsafeStop, h, List.mem_cons] at hs
    rcases hs with rfl | hs
    · exact hsid s h
    · exact hcanc s hs

lemma mem_unsafeStop_cancelled {r : Reconciler} {sid : Nat}
    (h : r.stopCtx = some sid) : sid ∈ (unsafeStop r).cancelledScopes := by
  simp [unsafeStop, h]

/-- The registry contents produced by adding one loop per channel of a
list on top of an existing map, all spawned against the same context. -/
def addAll (ctx : Option Nat) :
    List IRCChannel → List (String × LoopEntry) → List (String × LoopEntry)
  | [], m => m
  | ch :: rest, m =>
    addAll ctx rest (ainsert ch.name { state := newChannelState ch, ctx := ctx } m)

lemma foldlAdd_stopCtx (l : List IRCChannel) (r : Reconciler) :
    (List.foldl (fun acc ch => (unsafeAddChannel ch acc).2) r l).stopCtx =
      r.stopCtx := by
  induction l generalizing r with
  | nil => rfl
  | cons ch rest ih => exact ih _

lemma foldlAdd_nextScope (l : List IRCChannel) (r : Reconciler) :
    (List.foldl (fun acc ch => (unsafeAddChannel ch acc).2) r l).nextScope =
      r.nextScope := by
  induction l generalizing r with
  | nil => rfl
  | cons ch rest ih => exact ih _

lemma foldlAdd_cancelled (l : List IRCChannel) (r : Reconciler) :
    (List.foldl (fun acc ch => (unsafeAddChannel ch acc).2) r l).cancelledScopes =
      r.cancelledScopes := by
  induction l generalizing r with
  | nil => rfl
  | cons ch rest ih => exact ih _

lemma foldlAdd_preJoin (l : List IRCChannel) (r : Reconciler) :
    (List.foldl (fun acc ch => (unsafeAddChannel ch acc).2) r l).preJoinChannels =
      r.preJoinChannels := by
  induction l generalizing r with
  | nil => rfl
  | cons ch rest ih => exact ih _

lemma foldlAdd_channels (l : List IRCChannel) (r : Reconciler) :
    (List.foldl (fun acc ch => (unsafeAddChannel ch acc).2) r l).channels =
      addAll r.stopCtx l r.channels := by
  induction l generalizing r with
  | nil => rfl
  | cons ch rest ih => exact ih _

lemma Start_eq (p : Bool) (r : Reconciler) :
    Start p r =
      List.foldl (fun acc ch => (unsafeAddChannel ch acc).2)
        { unsafeStop r with
          stopCtx := some (unsafeStop r).nextScope
          nextScope := (unsafeStop r).nextScope + 1
          cancelledScopes :=
            if p then (unsafeStop r).nextScope :: (unsafeStop r).cancelledScopes
            else (unsafeStop r).cancelledScopes }
        (unsafeStop r).preJoinChannels := rfl

lemma alookup_addAll_not_mem {k : String} (ctx : Option Nat)
    (l : List IRCChannel) (m : List (String × LoopEntry))
    (h : k ∉ l.map fun c => c.name) :
    alookup k (addAll ctx l m) = alookup k m := by
  induction l generalizing m with
  | nil => rfl
  | cons ch rest ih =>
    have hk : k ≠ ch.name := by
      intro hh
      exact h (by simp [hh])
    have hrest : k ∉ rest.map fun c => c.name := by
      intro hh
      exact h (by simp [hh])
    show alookup k (addAll ctx rest _) = _
    rw [ih _ hrest, alookup_ainsert_ne hk]

lemma alookup_addAll_mem (ctx : Option Nat) {ch : IRCChannel}
    (l : List IRCChannel) (m : List (String × LoopEntry))
    (hmem : ch ∈ l) (hnodup : (l.map fun c => c.name).Nodup) :
    alookup ch.name (addAll ctx l m) =
      some { state := newChannelState ch, ctx := ctx } := by
  induction l generalizing m with
  | nil => cases hmem
  | cons ch0 rest ih =>
    rcases List.mem_cons.mp hmem with rfl | hmem0
    · have hnot : ch.name ∉ rest.map fun c => c.name := by
        have := hnodup
        simp only [List.map_cons, List.nodup_cons] at this
        exact this.1
      show alookup ch.name (addAll ctx rest _) = _
      rw [alookup_addAll_not_mem ctx rest _ hnot, alookup_ainsert_self]
    · have hnodup' : (rest.map fun c => c.name).Nodup := by
        have := hnodup
        simp only [List.map_cons, List.nodup_cons] at this
        exact this.2
      exact ih _ hmem0 hnodup'

lemma isSome_alookup_addAll {k : String} (ctx : Option Nat)
    (l : List IRCChannel) (m : List (String × LoopEntry)) :
    (alookup k (addAll ctx l m)).isSome = true ↔
      (k ∈ l.map fun c => c.name) ∨ (alookup k m).isSome = true := by
  induction l generalizing m with
  | nil => simp [addAll]
  | cons ch rest ih =>
    show (alookup k (addAll ctx rest _)).isSome = true ↔ _
    rw [ih]
    by_cases hk : k = ch.name
    · subst hk
      simp [alookup_ainsert_self]
    · have hne : k ≠ ch.name := hk
      rw [alookup_ainsert_ne hne]
      simp [List.mem_cons, hne]

lemma aerase_sublist (k : String) (m : List (String × LoopEntry)) :
    (aerase k m).Sublist m := by
  induction m with
  | nil => exact List.Sublist.refl []
  | cons q rest ih =>
    rw [aerase_cons]
    by_cases hq : q.1 = k
    · rw [if_pos hq]
      exact ih.trans (List.sublist_cons_self q rest)
    · rw [if_neg hq]
      exact List.Sublist.cons₂ q ih

lemma keys_aerase_not_mem (k : String) (m : List (String × LoopEntry)) :
    k ∉ (aerase k m).map Prod.fst := by
  induction m with
  | nil => simp [aerase]
  | cons q rest ih =>
    rw [aerase_cons]
    by_cases hq : q.1 = k
    · rw [if_pos hq]
      exact ih
    · rw [if_neg hq]
      simp only [List.map_cons, List.mem_cons]
      rintro (h | h)
      · exact hq h.symm
      · exact ih h

lemma keys_nodup_ainsert {k : String} {v : LoopEntry}
    {m : List (String × LoopEntry)} (h : (m.map Prod.fst).Nodup) :
    ((ainsert k v m).map Prod.fst).Nodup := by
  rw [ainsert]
  simp only [List.map_cons]
  refine List.nodup_cons.mpr ⟨keys_aerase_not_mem k m, ?_⟩
  exact List.Nodup.sublist (List.Sublist.map Prod.fst (aerase_sublist k m)) h

lemma mem_aerase {q : String × LoopEntry} {k : String}
    {m : List (String × LoopEntry)} (h : q ∈ aerase k m) : q ∈ m :=
  (aerase_sublist k m).subset h

lemma mem_ainsert {q : String × LoopEntry} {k : String} {v : LoopEntry}
    {m : List (String × LoopEntry)} (h : q ∈ ainsert k v m) :
    q = (k, v) ∨ q ∈ m := by
  rw [ainsert] at h
  rcases List.mem_cons.mp h with h | h
  · exact Or.inl h
  · exact Or.inr (mem_aerase h)

lemma keys_nodup_addAll (ctx : Option Nat) (l : List IRCChannel)
    (m : List (String × LoopEntry)) (h : (m.map Prod.fst).Nodup) :
    ((addAll ctx l m).map Prod.fst).Nodup := by
  induction l generalizing m with
  | nil => exact h
  | cons ch rest ih => exact ih _ (keys_nodup_ainsert h)

lemma ctx_mem_addAll {q : String × LoopEntry} (ctx : Option Nat)
    (l : List IRCChannel) (m : List (String × LoopEntry))
    (h : q ∈ addAll ctx l m) : q.2.ctx = ctx ∨ q ∈ m := by
  induction l generalizing m with
  | nil => exact Or.inr h
  | cons ch rest ih =>
    rcases ih _ h with h1 | h1
    · exact Or.inl h1
    · rcases mem_ainsert h1 with rfl | h2
      · exact Or.inl rfl
      · exact Or.inr h2

/-- C7: `Start` first performs the full effect of `Stop` on any previous
run (the old scope, if any, is cancelled and the registry is empty before
repopulation; on a first call this prior stop is a no-op), installs a
fresh cancellation scope derived from the parent, and repopulates the
registry with exactly one loop per configured desired channel, keyed by
its name, each spawned (with a running task, when the parent is live)
against the new scope.  The hypotheses say the scope counter is fresh and
that a never-started reconciler has an empty registry (which holds for
every reconciler whose process has not crashed, since adding a loop
before the first `Start` panics, cf. C10). -/
theorem c7_Start_spec (p : Bool) (r : Reconciler)
    (hcanc : ∀ s ∈ r.cancelledScopes, s < r.nextScope)
    (hsid : ∀ sid, r.stopCtx = some sid → sid < r.nextScope)
    (hclean : r.stopCtx = none → r.channels = []) :
    (Start p r).stopCtx = some r.nextScope ∧
    (Start p r).nextScope = r.nextScope + 1 ∧
    (Start p r).preJoinChannels = r.preJoinChannels ∧
    (∀ sid, r.stopCtx = some sid → scopeCancelled (Start p r) sid = true) ∧
    (unsafeStop r).channels = [] ∧
    (Start p r).channels = addAll (some r.nextScope) r.preJoinChannels [] ∧
    ((r.preJoinChannels.map fun c => c.name).Nodup →
      ∀ ch ∈ r.preJoinChannels,
        alookup ch.name (Start p r).channels =
          some { state := newChannelState ch, ctx := some r.nextScope }) ∧
    (∀ k, (alookup k (Start p r).channels).isSome = true ↔
        k ∈ r.preJoinChannels.map fun c => c.name) ∧
    (p = false → ∀ q ∈ (Start p r).channels, taskRunning (Start p r) q.2 = true) := by
  have hstop : (Start p r).stopCtx = some r.nextScope := by
    rw [Start_eq, foldlAdd_stopCtx]
    show some (unsafeStop r).nextScope = some r.nextScope
    rw [unsafeStop_nextScope]
  have hnext : (Start p r).nextScope = r.nextScope + 1 := by
    rw [Start_eq, foldlAdd_nextScope]
    show (unsafeStop r).nextScope + 1 = r.nextScope + 1
    rw [unsafeStop_nextScope]
  have hpre : (Start p r).preJoinChannels = r.preJoinChannels := by
    rw [Start_eq, foldlAdd_preJoin]
    show (unsafeStop r).preJoinChannels = r.preJoinChannels
    exact unsafeStop_preJoin r
  have hcancS : (Start p r).cancelledScopes =
      if p then (unsafeStop r).nextScope :: (unsafeStop r).cancelledScopes
      else (unsafeStop r).cancelledScopes := by
    rw [Start_eq, foldlAdd_cancelled]
  have hchan : (Start p r).channels =
      addAll (some r.nextScope) r.preJoinChannels [] := by
    rw [Start_eq, foldlAdd_channels]
    show addAll (some (unsafeStop r).nextScope) (unsafeStop r).preJoinChannels
        (unsafeStop r).channels = _
    rw [unsafeStop_nextScope, unsafeStop_preJoin, unsafeStop_channels hclean]
  have hold : ∀ sid, r.stopCtx = some sid →
      scopeCancelled (Start p r) sid = true := by
    intro sid h
    have hmem : sid ∈ (unsafeStop r).cancelledScopes :=
      mem_unsafeStop_cancelled h
    cases p <;> simp [scopeCancelled, hcancS, hmem]
  refine ⟨hstop, hnext, hpre, hold, unsafeStop_channels hclean, hchan, ?_, ?_, ?_⟩
  · intro hnd ch hch
    rw [hchan]
    exact alookup_addAll_mem _ _ _ hch hnd
  · intro k
    rw [hchan, isSome_alookup_addAll]
    simp [alookup]
  · rintro rfl q hq
    rw [hchan] at hq
    rcases ctx_mem_addAll _ _ _ hq with hctx | hmem
    · have hnotc : r.nextScope ∉ (Start false r).cancelledScopes := by
        rw [hcancS]
        simp only [if_neg Bool.false_ne_true]
        intro hmem2
        exact absurd (unsafeStop_cancelled_lt hcanc hsid _ hmem2) (lt_irrefl _)
      simp [taskRunning, hctx, scopeCancelled, hnotc]
    · exact absurd hmem (List.not_mem_nil q)

/-- Witness for C7 on the sample reconciler: the new scope id 1 is
installed, the old scope 0 is cancelled, and `#a` gets a fresh loop under
the new scope. -/
theorem c7_Start_spec_witness :
    (Start false sampleReconciler).stopCtx = some 1 ∧
    scopeCancelled (Start false sampleReconciler) 0 = true ∧
    alookup "#a" (Start false sampleReconciler).channels =
      some { state := newChannelState ⟨"#a", "pw"⟩, ctx := some 1 } := by
  have h := c7_Start_spec false sampleReconciler (by decide) (by decide) (by decide)
  exact ⟨h.1, h.2.2.2.1 0 rfl,
    h.2.2.2.2.2.2.1 (by decide) ⟨"#a", "pw"⟩ (by decide)⟩

lemma JoinChannel_found {name : String} {r : Reconciler} {c : LoopEntry}
    (h : alookup name r.channels = some c) : (JoinChannel name r).2 = r := by
  simp only [JoinChannel, h]
  split <;> rfl

lemma JoinChannel_absent {name : String} {r : Reconciler}
    (h : alookup name r.channels = none) :
    (JoinChannel name r).2 =
      { r with
        channels :=
          ainsert name
            { state := newChannelState { name := name, password := "" }
              ctx := r.stopCtx } r.channels } := by
  simp only [JoinChannel, h, unsafeAddChannel]
  split <;> rfl

/-- One public registry operation (those the C8 invariant ranges over). -/
inductive ROp where
  | start (parentCancelled : Bool)
  | stop
  | join (name : String)
deriving DecidableEq, Repr

/-- Apply one registry operation. -/
def applyROp (r : Reconciler) : ROp → Reconciler
  | .start p => Start p r
  | .stop => Stop r
  | .join name => (JoinChannel name r).2

/-- Run a sequence of registry operations. -/
def runROps (r : Reconciler) : List ROp → Reconciler
  | [] => r
  | op :: rest => runROps (applyROp r op) rest

/-- An operation issued under healthy conditions: `Start` under a live
parent context, `JoinChannel` only while an installed, not-yet-cancelled
scope is in place (no `JoinChannel` before the first `Start` or after a
`Stop`). -/
def goodOp (r : Reconciler) : ROp → Bool
  | .start p => !p
  | .stop => true
  | .join _ =>
    match r.stopCtx with
    | none => false
    | some sid => !(scopeCancelled r sid)

/-- A sequence of registry operations all issued under healthy
conditions. -/
def goodRun (r : Reconciler) : List ROp → Bool
  | [] => true
  | op :: rest => goodOp r op && goodRun (applyROp r op) rest

/-- Registry invariant: registry keys are unique; every entry was spawned
against the current scope; scope ids are fresh; every registered entry's
task is running; and a never-started reconciler has an empty registry. -/
def RegInv (r : Reconciler) : Prop :=
  (r.channels.map Prod.fst).Nodup ∧
  (∀ q ∈ r.channels, q.2.ctx = r.stopCtx) ∧
  (∀ sid, r.stopCtx = some sid → sid < r.nextScope) ∧
  (∀ s ∈ r.cancelledScopes, s < r.nextScope) ∧
  (∀ q ∈ r.channels, taskRunning r q.2 = true) ∧
  (r.stopCtx = none → r.channels = [])

lemma regInv_new (pre : List IRCChannel) (me : String) :
    RegInv (NewChannelReconciler pre me) := by
  refine ⟨?_, ?_, ?_, ?_, ?_, ?_⟩ <;> simp [NewChannelReconciler]

lemma keys_nodup_unsafeStop {r : Reconciler}
    (h : (r.channels.map Prod.fst).Nodup) :
    ((unsafeStop r).channels.map Prod.fst).Nodup := by
  cases hst : r.stopCtx
  · simpa [unsafeStop, hst] using h
  · simp [unsafeStop, hst]

lemma keys_nodup_Start {r : Reconciler} (p : Bool)
    (h : (r.channels.map Prod.fst).Nodup) :
    ((Start p r).channels.map Prod.fst).Nodup := by
  rw [Start_eq, foldlAdd_channels]
  show ((addAll (some (unsafeStop r).nextScope) (unsafeStop r).preJoinChannels
      (unsafeStop r).channels).map Prod.fst).Nodup
  exact keys_nodup_addAll _ _ _ (keys_nodup_unsafeStop h)

lemma keys_nodup_applyROp {r : Reconciler} (op : ROp)
    (h : (r.channels.map Prod.fst).Nodup) :
    ((applyROp r op).channels.map Prod.fst).Nodup := by
  cases op with
  | start p => exact keys_nodup_Start p h
  | stop =>
    show ((unsafeStop r).channels.map Prod.fst).Nodup
    exact keys_nodup_unsafeStop h
  | join name =>
    cases hlk : alookup name r.channels with
    | some c =>
      rw [show applyROp r (ROp.join name) = (JoinChannel name r).2 from rfl,
        JoinChannel_found hlk]
      exact h
    | none =>
      rw [show applyROp r (ROp.join name) = (JoinChannel name r).2 from rfl,
        JoinChannel_absent hlk]
      exact keys_nodup_ainsert h

lemma keys_nodup_runROps {r : Reconciler} (ops : List ROp)
    (h : (r.channels.map Prod.fst).Nodup) :
    ((runROps r ops).channels.map Prod.fst).Nodup := by
  induction ops generalizing r with
  | nil => exact h
  | cons op rest ih => exact ih (keys_nodup_applyROp op h)

lemma regInv_Start_false {r : Reconciler} (hinv : RegInv r) :
    RegInv (Start false r) := by
  obtain ⟨h1, h2, h3, h4, h5, h6⟩ := hinv
  have hstop : (Start false r).stopCtx = some r.nextScope := by
    rw [Start_eq, foldlAdd_stopCtx]
    show some (unsafeStop r).nextScope = some r.nextScope
    rw [unsafeStop_nextScope]
  have hnext : (Start false r).nextScope = r.nextScope + 1 := by
    rw [Start_eq, foldlAdd_nextScope]
    show (unsafeStop r).nextScope + 1 = r.nextScope + 1
    rw [unsafeStop_nextScope]
  have hcancS : (Start false r).cancelledScopes =
      (unsafeStop r).cancelledScopes := by
    rw [Start_eq, foldlAdd_cancelled]
    rfl
  have hchan : (Start false r).channels =
      addAll (some r.nextScope) r.preJoinChannels [] := by
    rw [Start_eq, foldlAdd_channels]
    show addAll (some (unsafeStop r).nextScope) (unsafeStop r).preJoinChannels
        (unsafeStop r).channels = _
    rw [unsafeStop_nextScope, unsafeStop_preJoin, unsafeStop_channels h6]
  refine ⟨keys_nodup_Start false h1, ?_, ?_, ?_, ?_, ?_⟩
  · intro q hq
    rw [hchan] at hq
    rcases ctx_mem_addAll _ _ _ hq with hctx | hmem
    · rw [hctx, hstop]
    · exact absurd hmem (List.not_mem_nil q)
  · intro sid hs
    rw [hstop] at hs
    cases hs
    rw [hnext]
    exact Nat.lt_succ_self _
  · intro s hs
    rw [hcancS] at hs
    rw [hnext]
    exact Nat.lt_succ_of_lt (unsafeStop_cancelled_lt h4 h3 s hs)
  · intro q hq
    rw [hchan] at hq
    rcases ctx_mem_addAll _ _ _ hq with hctx | hmem
    · have hnotc : r.nextScope ∉ (Start false r).cancelledScopes := by
        rw [hcancS]
        intro hmem2
        exact absurd (unsafeStop_cancelled_lt h4 h3 _ hmem2) (lt_irrefl _)
      simp [taskRunning, hctx, scopeCancelled, hnotc]
    · exact absurd hmem (List.not_mem_nil q)
  · intro habs
    rw [hstop] at habs
    exact Option.noConfusion habs

lemma regInv_Stop {r : Reconciler} (hinv : RegInv r) : RegInv (Stop r) := by
  obtain ⟨h1, h2, h3, h4, h5, h6⟩ := hinv
  cases hst : r.stopCtx with
  | none =>
    have he : Stop r = r := by simp [Stop, unsafeStop, hst]
    rw [he]
    exact ⟨h1, h2, h3, h4, h5, h6⟩
  | some sid =>
    have he : Stop r =
        { r with cancelledScopes := sid :: r.cancelledScopes, channels := [] } := by
      simp [Stop, unsafeStop, hst]
    rw [he]
    refine ⟨by simp, by simp, ?_, ?_, by simp, ?_⟩
    · intro sid2 hs2
      exact h3 sid2 hs2
    · intro s hs
      simp only [List.mem_cons] at hs
      rcases hs with hs | hs
      · rw [hs]
        exact h3 sid hst
      · exact h4 s hs
    · intro habs
      have hh : r.stopCtx = none := habs
      rw [hst] at hh

lemma regInv_Join {r : Reconciler} (name : String) (hinv : RegInv r)
    (hop : goodOp r (ROp.join name) = true) :
    RegInv ((JoinChannel name r).2) := by
  obtain ⟨h1, h2, h3, h4, h5, h6⟩ := hinv
  cases hst : r.stopCtx with
  | none => simp [goodOp, hst] at hop
  | some sid =>
    have hnc : sid ∉ r.cancelledScopes := by
      simp only [goodOp, hst, scopeCancelled, Bool.not_eq_true',
        decide_eq_false_iff_not] at hop
      exact hop
    cases hlk : alookup name r.channels with
    | some c =>
      rw [JoinChannel_found hlk]
      exact ⟨h1, h2, h3, h4, h5, h6⟩
    | none =>
      rw [JoinChannel_absent hlk]
      refine ⟨keys_nodup_ainsert h1, ?_, h3, h4, ?_, ?_⟩
      · intro q hq
        rcases mem_ainsert hq with rfl | hq2
        · rfl
        · exact h2 q hq2
      · intro q hq
        rcases mem_ainsert hq with rfl | hq2
        · simp [taskRunning, hst, scopeCancelled, hnc]
        · exact h5 q hq2
      · intro habs
        have hh : r.stopCtx = none := habs
        rw [hst] at hh
        exact Option.noConfusion hh

lemma regInv_applyROp {r : Reconciler} (op : ROp) (hinv : RegInv r)
    (hop : goodOp r op = true) : RegInv (applyROp r op) := by
  cases op with
  | start p =>
    have hp : p = false := by
      cases p
      · rfl
      · simp [goodOp] at hop
    subst hp
    exact regInv_Start_false hinv
  | stop => exact regInv_Stop hinv
  | join name => exact regInv_Join name hinv hop

lemma regInv_runROps {r : Reconciler} (ops : List ROp) (hinv : RegInv r)
    (hgood : goodRun r ops = true) : RegInv (runROps r ops) := by
  induction ops generalizing r with
  | nil => exact hinv
  | cons op rest ih =>
    simp only [goodRun, Bool.and_eq_true] at hgood
    obtain ⟨hop, hrest⟩ := hgood
    exact ih (regInv_applyROp op hinv hop) hrest

/-- C8 counterexample: the reachable call sequence `Start; Stop;
JoinChannel "x"` leaves a registry entry for `"x"` even though its loop's
task (spawned against the already-cancelled scope) has exited, refuting
"a registry entry exists only while that loop's task is running". -/
theorem c8_counterexample_stale_entry :
    alookup "x" (runROps (NewChannelReconciler [] "me")
        [ROp.start false, ROp.stop, ROp.join "x"]).channels =
      some { state := newChannelState { name := "x", password := "" }
             ctx := some 0 } ∧
    taskRunning (runROps (NewChannelReconciler [] "me")
        [ROp.start false, ROp.stop, ROp.join "x"])
      { state := newChannelState { name := "x", password := "" }
        ctx := some 0 } = false :=
  ⟨rfl, rfl⟩

/-- C8 (amended): over every sequence of `Start`/`Stop`/`JoinChannel`
calls from a fresh reconciler, a channel name maps to at most one loop
(registry keys stay unique); and provided every loop is spawned under an
installed, not-yet-cancelled scope — every `Start` under a live parent and
no `JoinChannel` before the first `Start` or after a `Stop` without an
intervening `Start` — a registry entry exists only while its loop's task
is running. -/
theorem c8_registry_invariant (pre : List IRCChannel) (me : String)
    (ops : List ROp) :
    ((runROps (NewChannelReconciler pre me) ops).channels.map Prod.fst).Nodup ∧
    (goodRun (NewChannelReconciler pre me) ops = true →
      ∀ q ∈ (runROps (NewChannelReconciler pre me) ops).channels,
        taskRunning (runROps (NewChannelReconciler pre me) ops) q.2 = true) := by
  constructor
  · exact keys_nodup_runROps ops (by simp [NewChannelReconciler])
  · intro hgood
    exact (regInv_runROps ops (regInv_new pre me) hgood).2.2.2.2.1

/-- Witness for C8 (amended) on a concrete healthy run. -/
theorem c8_registry_invariant_witness :
    taskRunning (runROps (NewChannelReconciler [⟨"#a", "pw"⟩] "me")
        [ROp.start false, ROp.join "x"])
      { state := newChannelState { name := "x", password := "" }, ctx := some 0 } =
      true := by
  have h := (c8_registry_invariant [⟨"#a", "pw"⟩] "me"
    [ROp.start false, ROp.join "x"]).2 (by decide)
  exact h ("x",
    { state := newChannelState { name := "x", password := "" }, ctx := some 0 })
    (by decide)

/-- C10: a loop created by `JoinChannel` before the first `Start` is
registered with a nil context — its `Monitor` task dereferences nil at its
first cancellation check and panics — whereas after a `Start`-then-`Stop`
the same call registers the loop under the already-cancelled scope (id 0),
whose task exits immediately at its first guard check without panicking. -/
theorem c10_nil_scope_vs_cancelled_scope (pre : List IRCChannel)
    (me name : String) (fuel : Nat) :
    alookup name (JoinChannel name (NewChannelReconciler pre me)).2.channels =
      some { state := newChannelState { name := name, password := "" }
             ctx := none } ∧
    monitorStart none fuel = MonitorOutcome.panicked ∧
    alookup name
        (JoinChannel name
          (Stop (Start false (NewChannelReconciler pre me)))).2.channels =
      some { state := newChannelState { name := name, password := "" }
             ctx := some 0 } ∧
    scopeCancelled
      (JoinChannel name (Stop (Start false (NewChannelReconciler pre me)))).2
      0 = true ∧
    taskRunning
      (JoinChannel name (Stop (Start false (NewChannelReconciler pre me)))).2
      { state := newChannelState { name := name, password := "" }
        ctx := some 0 } = false ∧
    monitorStart (some fun _ => CtxErr.canceled) (fuel + 1) =
      MonitorOutcome.exited 0 ∧
    monitorStart (some fun _ => CtxErr.canceled) (fuel + 1) ≠
      MonitorOutcome.panicked := by
  have h0 : alookup name (NewChannelReconciler pre me).channels = none := rfl
  have hstop1 : (Start false (NewChannelReconciler pre me)).stopCtx =
      some 0 := by
    rw [Start_eq, foldlAdd_stopCtx]
    rfl
  have hstopeq : Stop (Start false (NewChannelReconciler pre me)) =
      { Start false (NewChannelReconciler pre me) with
        cancelledScopes :=
          0 :: (Start false (NewChannelReconciler pre me)).cancelledScopes
        channels := [] } := by
    simp [Stop, unsafeStop, hstop1]
  have habs2 : alookup name
      (Stop (Start false (NewChannelReconciler pre me))).channels = none := by
    rw [hstopeq]
    rfl
  have hctx2 : (Stop (Start false (NewChannelReconciler pre me))).stopCtx =
      some 0 := by
    rw [hstopeq]
    exact hstop1
  have hcanc4 : scopeCancelled
      (JoinChannel name (Stop (Start false (NewChannelReconciler pre me)))).2
      0 = true := by
    rw [JoinChannel_absent habs2]
    show scopeCancelled
      (Stop (Start false (NewChannelReconciler pre me)))
      0 = true
    rw [hstopeq]
    simp [scopeCancelled]
  refine ⟨?_, rfl, ?_, hcanc4, ?_, ?_, ?_⟩
  · rw [JoinChannel_absent h0]
    exact alookup_ainsert_self _ _ _
  · rw [JoinChannel_absent habs2, hctx2]
    exact alookup_ainsert_self _ _ _
  · show (!(scopeCancelled
      (JoinChannel name (Stop (Start false (NewChannelReconciler pre me)))).2
      0)) = false
    rw [hcanc4]
    rfl
  · simp [monitorStart, monitorRun]
  · simp [monitorStart, monitorRun]
